import Mathlib

set_option maxRecDepth 100000

/-!
Verification of the Bin Duty rotation scheduler
(`src/src/BinDuty.jsx` and `src/unnamed/part_000`).

A JavaScript `Date` produced by `new Date(year, month, day)` and truncated by
`toLocalMidnight` is determined by its local calendar day.  We model such a
value as its day number relative to 1970-01-01 (an `Int`), together with the
proleptic-Gregorian conversion functions that ECMAScript prescribes for the
host environment (`MakeDay`, `YearFromTime`, `MonthFromTime`, `DateFromTime`,
`WeekDay`).  The model has a fixed local offset, so a calendar day is exactly
one day number; `daysBetween`'s `Math.round` (which absorbs DST shifts of the
real host clock) is then exact subtraction.
-/

-- A JavaScript `Date` at local midnight is represented as its day number
-- relative to 1970-01-01 in the local calendar, a plain `Int`.

/-- Leap-year rule on the year-of-era (era = 400 years, starting at a year
divisible by 400, e.g. 1600).  `leapYoe y` for year `1600 + 400*era + y`
agrees with the Gregorian rule because leapness only depends on
`year mod 400`. -/
def leapYoe (y : Nat) : Bool := (y % 4 == 0 && y % 100 != 0) || y % 400 == 0

/-- Number of days in a year of era with year-of-era `y`. -/
def yearLen (y : Nat) : Nat := if leapYoe y then 366 else 365

/-- Number of days of month `m` (0-based, January = 0). -/
def monthLen (leap : Bool) (m : Nat) : Nat :=
  match m with
  | 0 => 31
  | 1 => if leap then 29 else 28
  | 2 => 31
  | 3 => 30
  | 4 => 31
  | 5 => 30
  | 6 => 31
  | 7 => 31
  | 8 => 30
  | 9 => 31
  | 10 => 30
  | _ => 31

/-- Days from the start of the era to the start of year-of-era `y`. -/
def yoeDays : Nat → Nat
  | 0 => 0
  | y + 1 => yoeDays y + yearLen y

/-- Days from the start of the year to the start of month `m` (0-based). -/
def monthOff (leap : Bool) : Nat → Nat
  | 0 => 0
  | m + 1 => monthOff leap m + monthLen leap m

/-- Year-of-era of an `Int` year (era anchored at 1600). -/
def yoeOf (year : Int) : Nat := ((year - 1600) % 400).toNat

/-- Gregorian leap-year predicate for an arbitrary `Int` year. -/
def isLeapYear (year : Int) : Bool := leapYoe (yoeOf year)

/-- Day number of January 1 of `year`. -/
def dayOfJan1 (year : Int) : Int :=
  146097 * ((year - 1600) / 400) + (yoeDays (yoeOf year) : Int) - 135140

/-- ECMAScript `MakeDay`: the day number of `new Date(year, month, day)`
(month 0-based; out-of-range `month` and `day` roll over, e.g.
`new Date(y, m, 0)` is the last day of the previous month). -/
def mkDate (year month day : Int) : Int :=
  let ym := year + month / 12
  let mn := (month % 12).toNat
  dayOfJan1 ym + (monthOff (isLeapYear ym) mn : Int) + (day - 1)

/-- Split a day count since the start of the era into
(year-of-era, day-of-year), walking year by year. -/
def yearSplit : Nat → Nat → Nat → Nat × Nat
  | 0, y, r => (y, r)
  | fuel + 1, y, r => if r < yearLen y then (y, r) else yearSplit fuel (y + 1) (r - yearLen y)

/-- Split a day-of-year into (month, day-of-month), walking month by month. -/
def monthSplit (leap : Bool) : Nat → Nat → Nat → Nat × Nat
  | 0, m, r => (m, r)
  | fuel + 1, m, r =>
    if r < monthLen leap m then (m, r) else monthSplit leap fuel (m + 1) (r - monthLen leap m)

/-- Civil (year, month 0-based, day-of-month 1-based) of a day number:
ECMAScript `YearFromTime` / `MonthFromTime` / `DateFromTime`.
1600-01-01 is 135140 days before 1970-01-01, so `z + 135140` is the day
count since 1600-01-01, the start of an era. -/
def toCivil (z : Int) : Int × Nat × Nat :=
  let z' := z + 135140
  let era := z' / 146097
  let r := (z' % 146097).toNat
  let ys := yearSplit 400 0 r
  let ms := monthSplit (leapYoe ys.1) 12 0 ys.2
  (1600 + 400 * era + (ys.1 : Int), ms.1, ms.2 + 1)

/-- JS `date.getFullYear()` (for dates at local midnight). -/
def getFullYear (z : Int) : Int := (toCivil z).1

/-- JS `date.getMonth()` (0-based). -/
def getMonth (z : Int) : Int := ((toCivil z).2.1 : Int)

/-- JS `date.getDate()` (1-based day of month). -/
def getDate (z : Int) : Int := ((toCivil z).2.2 : Int)

/-- JS `date.getDay()`: ECMAScript `WeekDay(t) = (Day(t) + 4) modulo 7`,
0 = Sunday.  Day 0 (1970-01-01) was a Thursday (= 4). -/
def getDay (z : Int) : Int := (z + 4) % 7

/-- Source `toLocalMidnight`: on day-number dates this is the identity,
since the model already identifies a `Date` with its calendar day. -/
def toLocalMidnight (z : Int) : Int := z

/-- Source `daysBetween`: `Math.round((b0 - a0) / MS_PER_DAY)` on the two
local midnights, i.e. the signed day-count difference. -/
def daysBetween (a b : Int) : Int := toLocalMidnight b - toLocalMidnight a

/-- Source `addDays`: `setDate(getDate() + n)`, i.e. shift by `n` calendar
days. -/
def addDays (z : Int) (n : Int) : Int := z + n

/-- Source `addMonths`: `r.setMonth(r.getMonth() + n)` keeps year, day-of-month
and re-runs `MakeDay`, rolling over when the target month is shorter. -/
def addMonths (z : Int) (n : Int) : Int := mkDate (getFullYear z) (getMonth z + n) (getDate z)

-- Sanity checks of the calendar model on known dates.
example : mkDate 1970 0 1 = 0 := by decide
example : getDay 0 = 4 := by decide            -- 1970-01-01 was a Thursday
example : mkDate 2025 7 13 = 20313 := by decide
example : getDay (mkDate 2025 7 13) = 3 := by decide  -- 2025-08-13 is a Wednesday
example : toCivil 20313 = (2025, 7, 13) := by decide
example : mkDate 2025 7 32 = mkDate 2025 8 1 := by decide
example : mkDate 2024 1 29 + 1 = mkDate 2024 2 1 := by decide  -- 2024 is leap

/-! ## Rotation engine (from `getAssigneeForDate` and the component memos) -/

/-- A tenant: stable id and display name (source `TENANTS` entries). -/
structure Participant where
  id : String
  name : String
deriving DecidableEq

/-- Rotation configuration.  The sources hard-code the three fields
(`TENANTS`, `THURSDAY = 4` resp. Wednesday `3`, `ROTATION_START`); per the
spec's data model they are collected in one immutable config value, and each
source variant is an instance (see `thuConfig`, `wedConfig`). -/
structure RotationConfig where
  participants : List Participant
  dutyWeekday : Int
  anchorDate : Int

/-- Source `TENANTS` (identical in both variants). -/
def TENANTS : List Participant :=
  [⟨"1", "Basser"⟩, ⟨"2", "Berman"⟩, ⟨"3", "Galet"⟩, ⟨"4", "Leshinsky"⟩, ⟨"5", "Vale"⟩]

/-- Source `ROTATION_START = new Date(2025, 7, 13)` (Aug 13, 2025). -/
def ROTATION_START : Int := mkDate 2025 7 13

/-- The `src/src/BinDuty.jsx` variant: duty on Thursdays (`THURSDAY = 4`). -/
def thuConfig : RotationConfig := ⟨TENANTS, 4, ROTATION_START⟩

/-- The `src/unnamed/part_000` variant: duty on Wednesdays (`getDay() === 3`). -/
def wedConfig : RotationConfig := ⟨TENANTS, 3, ROTATION_START⟩

/-- Source `getAssigneeForDate`:
```
if (date.getDay() !== DUTY) return null;
const diff = Math.max(0, daysBetween(ROTATION_START, date));
const weeks = Math.floor(diff / 7);
const idx = weeks % TENANTS.length;
return TENANTS[idx];
```
`Math.max(0, i)` on an integer is `Int.toNat`; `Math.floor` of a quotient of
non-negative integers is `Nat` division, and `%` on non-negative operands is
`Nat.mod` (for an empty list JS yields `undefined`, here `none`). -/
def getAssigneeForDate (c : RotationConfig) (date : Int) : Option Participant :=
  if getDay date ≠ c.dutyWeekday then none
  else
    let diff : Nat := (daysBetween c.anchorDate date).toNat
    let weeks : Nat := diff / 7
    let idx : Nat := weeks % c.participants.length
    c.participants[idx]?

/-- The scan loop shared by `twelveWeeks` (`cap = 120`, `count = 12`):
```
for (let i = 0; i < cap; i++) {
  const candidate = addDays(today, i);
  if (candidate.getDay() === DUTY) {
    list.push({ date: candidate, who: getAssigneeForDate(candidate) });
    if (list.length === count) break;
  }
}
```
`fuel` is the remaining iterations, `need` the entries still missing
(`need = 0` is the `break`), `i` the current offset. -/
def occScan (c : RotationConfig) (start : Int) : Nat → Nat → Nat → List (Int × Option Participant)
  | 0, _, _ => []
  | _ + 1, 0, _ => []
  | fuel + 1, need + 1, i =>
    let candidate := addDays start (i : Int)
    if getDay candidate = c.dutyWeekday then
      (candidate, getAssigneeForDate c candidate) :: occScan c start fuel need (i + 1)
    else
      occScan c start fuel (need + 1) (i + 1)

/-- Source `twelveWeeks` memo: exactly the next 12 duty days within a 120-day
scan, each with its assignee. -/
def twelveWeeks (c : RotationConfig) (today : Int) : List (Int × Option Participant) :=
  occScan c today 120 12 0

/-- The scan loop of `nextForSelected`:
```
for (let i = 0; i < 365; i++) {
  const candidate = addDays(today, i);
  if (candidate.getDay() !== DUTY) continue;
  const who = getAssigneeForDate(candidate);
  if (who && who.id === selectedTenantId) return candidate;
}
return null;
``` -/
def nextScan (c : RotationConfig) (today : Int) (pid : String) : Nat → Nat → Option Int
  | 0, _ => none
  | fuel + 1, i =>
    let candidate := addDays today (i : Int)
    if getDay candidate ≠ c.dutyWeekday then nextScan c today pid fuel (i + 1)
    else
      match getAssigneeForDate c candidate with
      | some who => if who.id = pid then some candidate else nextScan c today pid fuel (i + 1)
      | none => nextScan c today pid fuel (i + 1)

/-- Source `nextForSelected` memo: `if (!selectedTenantId) return null` (the
empty string is falsy), then the 365-day scan. -/
def nextForSelected (c : RotationConfig) (today : Int) (pid : String) : Option Int :=
  if pid = "" then none else nextScan c today pid 365 0

/-! ## Month grid (from `buildMonthGrid`) -/

/-- A cell of the month grid: `{ date, inMonth }`. -/
structure Cell where
  date : Int
  inMonth : Bool
deriving DecidableEq

/-- The trailing `while (grid.length < 42)` loop of `buildMonthGrid`: append
the day after the current last cell, marked out-of-month.  (JS reads
`grid[grid.length - 1]`; the loop is only reached with a non-empty grid, and
on an empty grid it would throw — modelled by returning the grid
unchanged.) -/
def fillGridAux : Nat → List Cell → List Cell
  | 0, grid => grid
  | fuel + 1, grid =>
    match grid.getLast? with
    | none => grid
    | some last =>
      if grid.length < 42 then
        fillGridAux fuel (grid ++
          [⟨mkDate (getFullYear last.date) (getMonth last.date) (getDate last.date + 1), false⟩])
      else grid

/-- The `while` loop with its (sufficient) iteration bound made explicit: a
non-empty grid reaches length 42 in at most 41 appends, so 42 rounds of
`fillGridAux` compute exactly what the unbounded loop computes. -/
def fillGrid (grid : List Cell) : List Cell := fillGridAux 42 grid

/-- Source `buildMonthGrid`:
```
const year = anchor.getFullYear();
const month = anchor.getMonth();
const firstOfMonth = new Date(year, month, 1);
const startWeekday = firstOfMonth.getDay();
const daysInMonth = new Date(year, month + 1, 0).getDate();
// leading cells, then days 1..daysInMonth, then fill to 42
``` -/
def buildMonthGrid (anchor : Int) : List Cell :=
  let year := getFullYear anchor
  let month := getMonth anchor
  let firstOfMonth := mkDate year month 1
  let startWeekday := (getDay firstOfMonth).toNat
  let daysInMonth := (getDate (mkDate year (month + 1) 0)).toNat
  let leading := (List.range startWeekday).map
    (fun i : Nat => (⟨mkDate year month (1 - ((startWeekday : Int) - (i : Int))), false⟩ : Cell))
  let inMonthCells := (List.range daysInMonth).map
    (fun k : Nat => (⟨mkDate year month ((k : Int) + 1), true⟩ : Cell))
  fillGrid (leading ++ inMonthCells)

-- Sanity checks against hand-computed values.
example : getAssigneeForDate wedConfig (mkDate 2025 7 13) = some ⟨"1", "Basser"⟩ := by decide
example : getAssigneeForDate wedConfig (mkDate 2025 7 14) = none := by decide
example : getAssigneeForDate thuConfig (mkDate 2025 7 14) = some ⟨"1", "Basser"⟩ := by decide
example : getAssigneeForDate wedConfig (mkDate 2025 8 17) = some ⟨"1", "Basser"⟩ := by decide
example : (twelveWeeks wedConfig (mkDate 2025 7 13)).length = 12 := by decide
example : nextForSelected wedConfig (mkDate 2025 7 13) "3" = some (mkDate 2025 7 27) := by decide
example : (buildMonthGrid (mkDate 2025 7 13)).length = 42 := by decide

/-! ## Calendar correctness lemmas -/

theorem monthOff_twelve (y : Nat) : monthOff (leapYoe y) 12 = yearLen y := by
  unfold yearLen
  cases h : leapYoe y <;> simp [h] <;> rfl

theorem yoeDays_four_hundred : yoeDays 400 = 146097 := by decide

theorem yearLen_pos (y : Nat) : 365 ≤ yearLen y := by
  unfold yearLen; split <;> omega

theorem monthLen_pos (leap : Bool) (m : Nat) : 1 ≤ monthLen leap m := by
  unfold monthLen
  split <;> first | omega | (split <;> omega)

theorem monthLen_le (leap : Bool) (m : Nat) : monthLen leap m ≤ 31 := by
  unfold monthLen
  split <;> first | omega | (split <;> omega)

theorem yoeDays_mono {a b : Nat} (h : a ≤ b) : yoeDays a ≤ yoeDays b := by
  induction b with
  | zero =>
    have ha : a = 0 := by omega
    subst ha; exact Nat.le_refl _
  | succ b ih =>
    rcases Nat.lt_or_ge a (b + 1) with hl | hr
    · have h1 := ih (by omega)
      have h2 : yoeDays (b + 1) = yoeDays b + yearLen b := rfl
      omega
    · have ha : a = b + 1 := by omega
      subst ha; exact Nat.le_refl _

theorem monthOff_mono (leap : Bool) {a b : Nat} (h : a ≤ b) :
    monthOff leap a ≤ monthOff leap b := by
  induction b with
  | zero =>
    have ha : a = 0 := by omega
    subst ha; exact Nat.le_refl _
  | succ b ih =>
    rcases Nat.lt_or_ge a (b + 1) with hl | hr
    · have h1 := ih (by omega)
      have h2 : monthOff leap (b + 1) = monthOff leap b + monthLen leap b := rfl
      omega
    · have ha : a = b + 1 := by omega
      subst ha; exact Nat.le_refl _

theorem yearSplit_spec : ∀ (fuel y r : Nat), yoeDays y + r < yoeDays (y + fuel) →
    yoeDays (yearSplit fuel y r).1 + (yearSplit fuel y r).2 = yoeDays y + r ∧
    (yearSplit fuel y r).2 < yearLen (yearSplit fuel y r).1 ∧
    y ≤ (yearSplit fuel y r).1 ∧ (yearSplit fuel y r).1 < y + fuel := by
  intro fuel
  induction fuel with
  | zero =>
    intro y r h
    rw [Nat.add_zero] at h
    omega
  | succ fuel ih =>
    intro y r h
    simp only [yearSplit]
    by_cases hr : r < yearLen y
    · simp [hr]
    · simp only [hr, if_false]
      have hy1 : yoeDays (y + 1) = yoeDays y + yearLen y := rfl
      have hnext : yoeDays (y + 1) + (r - yearLen y) < yoeDays (y + 1 + fuel) := by
        have : y + 1 + fuel = y + (fuel + 1) := by omega
        rw [this, hy1]; omega
      have := ih (y + 1) (r - yearLen y) hnext
      rw [hy1] at this
      omega

theorem monthSplit_spec (leap : Bool) :
    ∀ (fuel m r : Nat), monthOff leap m + r < monthOff leap (m + fuel) →
    monthOff leap (monthSplit leap fuel m r).1 + (monthSplit leap fuel m r).2 =
      monthOff leap m + r ∧
    (monthSplit leap fuel m r).2 < monthLen leap (monthSplit leap fuel m r).1 ∧
    m ≤ (monthSplit leap fuel m r).1 ∧ (monthSplit leap fuel m r).1 < m + fuel := by
  intro fuel
  induction fuel with
  | zero =>
    intro m r h
    rw [Nat.add_zero] at h
    omega
  | succ fuel ih =>
    intro m r h
    simp only [monthSplit]
    by_cases hr : r < monthLen leap m
    · simp [hr]
    · simp only [hr, if_false]
      have hm1 : monthOff leap (m + 1) = monthOff leap m + monthLen leap m := rfl
      have hnext : monthOff leap (m + 1) + (r - monthLen leap m) < monthOff leap (m + 1 + fuel) := by
        have : m + 1 + fuel = m + (fuel + 1) := by omega
        rw [this, hm1]; omega
      have := ih (m + 1) (r - monthLen leap m) hnext
      rw [hm1] at this
      omega

theorem yoeDays_unique {a b x y : Nat} (hx : x < yearLen a) (hy : y < yearLen b)
    (h : yoeDays a + x = yoeDays b + y) : a = b ∧ x = y := by
  rcases Nat.lt_trichotomy a b with hab | hab | hab
  · have h1 : yoeDays (a + 1) ≤ yoeDays b := yoeDays_mono (by omega)
    have h2 : yoeDays (a + 1) = yoeDays a + yearLen a := rfl
    omega
  · subst hab; omega
  · have h1 : yoeDays (b + 1) ≤ yoeDays a := yoeDays_mono (by omega)
    have h2 : yoeDays (b + 1) = yoeDays b + yearLen b := rfl
    omega

theorem monthOff_unique (leap : Bool) {a b x y : Nat} (hx : x < monthLen leap a)
    (hy : y < monthLen leap b)
    (h : monthOff leap a + x = monthOff leap b + y) : a = b ∧ x = y := by
  rcases Nat.lt_trichotomy a b with hab | hab | hab
  · have h1 : monthOff leap (a + 1) ≤ monthOff leap b := monthOff_mono leap (by omega)
    have h2 : monthOff leap (a + 1) = monthOff leap a + monthLen leap a := rfl
    omega
  · subst hab; omega
  · have h1 : monthOff leap (b + 1) ≤ monthOff leap a := monthOff_mono leap (by omega)
    have h2 : monthOff leap (b + 1) = monthOff leap b + monthLen leap b := rfl
    omega

theorem yearSplit_four_hundred (r : Nat) (h : r < 146097) :
    yoeDays (yearSplit 400 0 r).1 + (yearSplit 400 0 r).2 = r ∧
    (yearSplit 400 0 r).2 < yearLen (yearSplit 400 0 r).1 ∧
    (yearSplit 400 0 r).1 < 400 := by
  have h0 : yoeDays 0 = 0 := rfl
  have hh := yearSplit_spec 400 0 r (by rw [Nat.zero_add, yoeDays_four_hundred, h0]; omega)
  obtain ⟨h1, h2, h3, h4⟩ := hh
  rw [h0] at h1
  exact ⟨by omega, h2, by omega⟩

theorem monthSplit_year (y doy : Nat) (h : doy < yearLen y) :
    monthOff (leapYoe y) (monthSplit (leapYoe y) 12 0 doy).1 +
      (monthSplit (leapYoe y) 12 0 doy).2 = doy ∧
    (monthSplit (leapYoe y) 12 0 doy).2 <
      monthLen (leapYoe y) (monthSplit (leapYoe y) 12 0 doy).1 ∧
    (monthSplit (leapYoe y) 12 0 doy).1 < 12 := by
  have h0 : monthOff (leapYoe y) 0 = 0 := rfl
  have hh := monthSplit_spec (leapYoe y) 12 0 doy
    (by rw [Nat.zero_add, monthOff_twelve, h0]; omega)
  obtain ⟨h1, h2, h3, h4⟩ := hh
  rw [h0] at h1
  exact ⟨by omega, h2, by omega⟩

theorem getDate_bounds (z : Int) : 1 ≤ getDate z ∧ getDate z ≤ 31 := by
  unfold getDate
  set r := ((z + 135140) % 146097).toNat with hrdef
  have hr : r < 146097 := by
    have e1 := Int.emod_lt_of_pos (z + 135140) (show (0:Int) < 146097 by norm_num)
    have e2 := Int.emod_nonneg (z + 135140) (show (146097:Int) ≠ 0 by norm_num)
    omega
  obtain ⟨hy1, hy2, hy3⟩ := yearSplit_four_hundred r hr
  obtain ⟨hm1, hm2, hm3⟩ := monthSplit_year _ _ hy2
  have hciv : (toCivil z).2.2 =
      (monthSplit (leapYoe (yearSplit 400 0 r).1) 12 0 (yearSplit 400 0 r).2).2 + 1 := rfl
  have hlen := monthLen_le (leapYoe (yearSplit 400 0 r).1)
    (monthSplit (leapYoe (yearSplit 400 0 r).1) 12 0 (yearSplit 400 0 r).2).1
  rw [hciv]
  omega

/-- Round trip: re-assembling a day number from its civil fields is the
identity; i.e. `new Date(d.getFullYear(), d.getMonth(), d.getDate())` is `d`
for a local-midnight date. -/
theorem mkDate_toCivil (z : Int) : mkDate (getFullYear z) (getMonth z) (getDate z) = z := by
  set r := ((z + 135140) % 146097).toNat with hrdef
  have hrnn : 0 ≤ (z + 135140) % 146097 :=
    Int.emod_nonneg (z + 135140) (show (146097:Int) ≠ 0 by norm_num)
  have hrlt : (z + 135140) % 146097 < 146097 :=
    Int.emod_lt_of_pos (z + 135140) (show (0:Int) < 146097 by norm_num)
  have hzdec : 146097 * ((z + 135140) / 146097) + (r : Int) = z + 135140 := by
    rw [hrdef, Int.toNat_of_nonneg hrnn]
    exact Int.ediv_add_emod (z + 135140) 146097
  have hr : r < 146097 := by omega
  obtain ⟨hy1, hy2, hy3⟩ := yearSplit_four_hundred r hr
  obtain ⟨hm1, hm2, hm3⟩ := monthSplit_year _ _ hy2
  set era := (z + 135140) / 146097 with heradef
  set yoe := (yearSplit 400 0 r).1 with hyoedef
  set doy := (yearSplit 400 0 r).2 with hdoydef
  set mo := (monthSplit (leapYoe yoe) 12 0 doy).1 with hmodef
  set dom := (monthSplit (leapYoe yoe) 12 0 doy).2 with hdomdef
  have hY : getFullYear z = 1600 + 400 * era + (yoe : Int) := rfl
  have hM : getMonth z = (mo : Int) := rfl
  have hD : getDate z = ((dom : Int) + 1) := by
    show ((dom + 1 : Nat) : Int) = (dom : Int) + 1
    push_cast
    rfl
  clear_value r era yoe doy mo dom
  clear hrdef heradef hyoedef hdoydef hmodef hdomdef
  rw [hY, hM, hD]
  unfold mkDate
  have hdiv : (mo : Int) / 12 = 0 := by omega
  have hmod : ((mo : Int) % 12).toNat = mo := by omega
  simp only [hdiv, hmod, Int.add_zero]
  unfold dayOfJan1 isLeapYear
  have hyoeOf : yoeOf (1600 + 400 * era + (yoe : Int)) = yoe := by
    simp only [yoeOf]
    omega
  have hedv : (1600 + 400 * era + (yoe : Int) - 1600) / 400 = era := by omega
  rw [hyoeOf, hedv]
  omega

theorem toCivil_decomp (z era : Int) (R : Nat) (hR : R < 146097)
    (hz : z + 135140 = 146097 * era + (R : Int)) :
    toCivil z = (1600 + 400 * era + ((yearSplit 400 0 R).1 : Int),
      (monthSplit (leapYoe (yearSplit 400 0 R).1) 12 0 (yearSplit 400 0 R).2).1,
      (monthSplit (leapYoe (yearSplit 400 0 R).1) 12 0 (yearSplit 400 0 R).2).2 + 1) := by
  have h1 : (z + 135140) / 146097 = era := by omega
  have h2 : ((z + 135140) % 146097).toNat = R := by omega
  simp only [toCivil]
  rw [h1, h2]

theorem mkDate_eq (Y : Int) (m d : Nat) (hm : m < 12) :
    mkDate Y (m : Int) (d : Int) = 146097 * ((Y - 1600) / 400) +
      ((yoeDays (yoeOf Y) : Int) + (monthOff (leapYoe (yoeOf Y)) m : Int) + ((d : Int) - 1)) -
      135140 := by
  unfold mkDate dayOfJan1 isLeapYear
  have hdiv : (m : Int) / 12 = 0 := by omega
  have hmod : ((m : Int) % 12).toNat = m := by omega
  simp only [hdiv, hmod, Int.add_zero]
  ring

/-- Round trip: for an in-range civil triple, `toCivil` recovers exactly the
fields that `mkDate` was given (no rolling over happens). -/
theorem toCivil_mkDate (Y : Int) (m d : Nat) (hm : m < 12) (hd1 : 1 ≤ d)
    (hd2 : d ≤ monthLen (isLeapYear Y) m) :
    toCivil (mkDate Y (m : Int) (d : Int)) = (Y, m, d) := by
  have hleap : isLeapYear Y = leapYoe (yoeOf Y) := rfl
  rw [hleap] at hd2
  have hyoe : yoeOf Y < 400 := by unfold yoeOf; omega
  have hmm : monthOff (leapYoe (yoeOf Y)) m + monthLen (leapYoe (yoeOf Y)) m =
      monthOff (leapYoe (yoeOf Y)) (m + 1) := rfl
  have h12 : monthOff (leapYoe (yoeOf Y)) (m + 1) ≤ monthOff (leapYoe (yoeOf Y)) 12 :=
    monthOff_mono _ (by omega)
  have hyl : monthOff (leapYoe (yoeOf Y)) 12 = yearLen (yoeOf Y) := monthOff_twelve _
  have hx : monthOff (leapYoe (yoeOf Y)) m + (d - 1) < yearLen (yoeOf Y) := by omega
  have hy1 : yoeDays (yoeOf Y) + yearLen (yoeOf Y) = yoeDays (yoeOf Y + 1) := rfl
  have hy4 : yoeDays (yoeOf Y + 1) ≤ yoeDays 400 := yoeDays_mono (by omega)
  rw [yoeDays_four_hundred] at hy4
  have hR : yoeDays (yoeOf Y) + (monthOff (leapYoe (yoeOf Y)) m + (d - 1)) < 146097 := by omega
  have hz := mkDate_eq Y m d hm
  have hdecY : 400 * ((Y - 1600) / 400) + ((yoeOf Y : Int)) = Y - 1600 := by
    unfold yoeOf; omega
  have hdec := toCivil_decomp (mkDate Y (m : Int) (d : Int)) ((Y - 1600) / 400)
    (yoeDays (yoeOf Y) + (monthOff (leapYoe (yoeOf Y)) m + (d - 1))) hR (by push_cast; omega)
  obtain ⟨hs1, hs2, hs3⟩ := yearSplit_four_hundred
    (yoeDays (yoeOf Y) + (monthOff (leapYoe (yoeOf Y)) m + (d - 1))) hR
  obtain ⟨hE1, hE2⟩ := yoeDays_unique hs2 hx hs1
  rw [hE1, hE2] at hdec
  obtain ⟨hms1, hms2, hms3⟩ := monthSplit_year (yoeOf Y) _ hx
  obtain ⟨hF1, hF2⟩ := monthOff_unique (leapYoe (yoeOf Y)) hms2 (by omega) hms1
  rw [hdec, hF1, hF2]
  have e1 : 1600 + 400 * ((Y - 1600) / 400) + ((yoeOf Y : Nat) : Int) = Y := by omega
  have e3 : d - 1 + 1 = d := by omega
  rw [e1, e3]

/-! ## Basic facts about the assignment function -/

theorem getAssigneeForDate_of_ne (c : RotationConfig) (d : Int)
    (h : getDay d ≠ c.dutyWeekday) : getAssigneeForDate c d = none := by
  unfold getAssigneeForDate
  simp [h]

theorem getAssigneeForDate_of_eq (c : RotationConfig) (d : Int)
    (h : getDay d = c.dutyWeekday) :
    getAssigneeForDate c d =
      c.participants[(daysBetween c.anchorDate d).toNat / 7 % c.participants.length]? := by
  unfold getAssigneeForDate
  simp [h]

theorem getAssigneeForDate_mem {c : RotationConfig} {d : Int} {p : Participant}
    (h : getAssigneeForDate c d = some p) : p ∈ c.participants := by
  unfold getAssigneeForDate at h
  by_cases hw : getDay d ≠ c.dutyWeekday
  · simp [hw] at h
  · simp only [hw, if_false] at h
    obtain ⟨hl, rfl⟩ := List.getElem?_eq_some.mp h
    exact List.getElem_mem hl

/-- The common index computation is periodic: adding a whole number of
rotation periods (`7 * n` days, `k : Int` of them) does not change
`days / 7 % n`. -/
theorem rot_index_eq (a b n : Nat) (k : Int)
    (hab : (b : Int) = (a : Int) + 7 * (n : Int) * k) :
    a / 7 % n = b / 7 % n := by
  have step : ∀ (x : Nat) (j : Nat), (x + 7 * (n * j)) / 7 % n = x / 7 % n := by
    intro x j
    have h7 : (x + 7 * (n * j)) / 7 = x / 7 + n * j := by
      rw [show x + 7 * (n * j) = x + n * j * 7 by ring]
      exact Nat.add_mul_div_right x (n * j) (by norm_num)
    rw [h7]
    exact Nat.add_mul_mod_self_left (x / 7) n j
  rcases le_or_lt 0 k with hk | hk
  · obtain ⟨j, rfl⟩ : ∃ j : Nat, k = (j : Int) := ⟨k.toNat, by omega⟩
    have hc : ((a + 7 * (n * j) : Nat) : Int) = (a : Int) + 7 * (n : Int) * (j : Int) := by
      push_cast; ring
    have hb : b = a + 7 * (n * j) := by exact_mod_cast hab.trans hc.symm
    rw [hb, step]
  · obtain ⟨j, rfl⟩ : ∃ j : Nat, k = -(j : Int) := ⟨(-k).toNat, by omega⟩
    have hc : ((b + 7 * (n * j) : Nat) : Int) = (b : Int) + 7 * (n : Int) * (j : Int) := by
      push_cast; ring
    have ha' : ((a : Nat) : Int) = (b : Int) + 7 * (n : Int) * (j : Int) := by
      rw [hab]; ring
    have ha : a = b + 7 * (n * j) := by exact_mod_cast ha'.trans hc.symm
    rw [ha, step]

/-! ## Claim theorems: the assignment function (C1, C2, C3) -/

/-- C1: for every date `d` and every config with non-empty participants,
`getAssigneeForDate c d` is `none` exactly when `d`'s weekday differs from
the duty weekday, and otherwise it is
`participants[(max 0 (daysBetween anchor d)) / 7 mod length]` (the spec's
formula, an in-range index). -/
theorem C1_assignee_formula (c : RotationConfig) (d : Int)
    (hne : c.participants ≠ []) :
    (getAssigneeForDate c d = none ↔ getDay d ≠ c.dutyWeekday) ∧
    (getDay d = c.dutyWeekday →
      ∃ hlt : (max 0 (daysBetween c.anchorDate d)).toNat / 7 % c.participants.length <
          c.participants.length,
        getAssigneeForDate c d = some (c.participants.get
          ⟨(max 0 (daysBetween c.anchorDate d)).toNat / 7 % c.participants.length, hlt⟩)) := by
  have hlen : 0 < c.participants.length := List.length_pos.mpr hne
  have hmax : (max 0 (daysBetween c.anchorDate d)).toNat = (daysBetween c.anchorDate d).toNat := by
    omega
  constructor
  · constructor
    · intro h0
      by_contra hw
      rw [getAssigneeForDate_of_eq c d hw] at h0
      have hidx : (daysBetween c.anchorDate d).toNat / 7 % c.participants.length <
          c.participants.length := Nat.mod_lt _ hlen
      rw [List.getElem?_eq_some.mpr ⟨hidx, rfl⟩] at h0
      exact Option.noConfusion h0
    · exact getAssigneeForDate_of_ne c d
  · intro hw
    have hidx : (daysBetween c.anchorDate d).toNat / 7 % c.participants.length <
        c.participants.length := Nat.mod_lt _ hlen
    rw [hmax]
    exact ⟨hidx, by rw [getAssigneeForDate_of_eq c d hw]
                    exact List.getElem?_eq_some.mpr ⟨hidx, rfl⟩⟩

theorem C1_assignee_formula_witness :
    wedConfig.participants ≠ [] ∧
    ((getAssigneeForDate wedConfig (mkDate 2025 7 20) = none ↔
        getDay (mkDate 2025 7 20) ≠ wedConfig.dutyWeekday) ∧
      (getDay (mkDate 2025 7 20) = wedConfig.dutyWeekday →
        ∃ hlt : (max 0 (daysBetween wedConfig.anchorDate (mkDate 2025 7 20))).toNat / 7 %
            wedConfig.participants.length < wedConfig.participants.length,
          getAssigneeForDate wedConfig (mkDate 2025 7 20) = some (wedConfig.participants.get
            ⟨(max 0 (daysBetween wedConfig.anchorDate (mkDate 2025 7 20))).toNat / 7 %
              wedConfig.participants.length, hlt⟩))) :=
  ⟨by decide, C1_assignee_formula wedConfig (mkDate 2025 7 20) (by decide)⟩

/-- C2: every duty-weekday date strictly before the anchor is clamped to
week 0 and resolves to `participants[0]`; in particular 2025-08-06 under the
Wednesday config resolves to Basser. -/
theorem C2_pre_anchor_clamp (c : RotationConfig) (d : Int)
    (hw : getDay d = c.dutyWeekday) (hpre : daysBetween c.anchorDate d < 0)
    (hne : c.participants ≠ []) :
    (∃ h0 : 0 < c.participants.length,
      getAssigneeForDate c d = some (c.participants.get ⟨0, h0⟩)) ∧
    getAssigneeForDate wedConfig (mkDate 2025 7 6) = some ⟨"1", "Basser"⟩ := by
  have hlen : 0 < c.participants.length := List.length_pos.mpr hne
  have hzero : (daysBetween c.anchorDate d).toNat / 7 % c.participants.length = 0 := by
    have : (daysBetween c.anchorDate d).toNat = 0 := by omega
    simp [this]
  refine ⟨⟨hlen, ?_⟩, by decide⟩
  rw [getAssigneeForDate_of_eq c d hw, hzero]
  exact List.getElem?_eq_some.mpr ⟨hlen, rfl⟩

theorem C2_pre_anchor_clamp_witness :
    getDay (mkDate 2025 7 6) = wedConfig.dutyWeekday ∧
    daysBetween wedConfig.anchorDate (mkDate 2025 7 6) < 0 ∧
    wedConfig.participants ≠ [] ∧
    (∃ h0 : 0 < wedConfig.participants.length,
      getAssigneeForDate wedConfig (mkDate 2025 7 6) =
        some (wedConfig.participants.get ⟨0, h0⟩)) :=
  ⟨by decide, by decide, by decide,
    (C2_pre_anchor_clamp wedConfig (mkDate 2025 7 6) (by decide) (by decide) (by decide)).1⟩

/-- C3: rotation periodicity — two duty-weekday dates on/after the anchor
whose distance is an exact (integer) multiple of `7 * participants.length`
have the same assignee. -/
theorem C3_periodicity (c : RotationConfig) (d1 d2 : Int)
    (h1 : getDay d1 = c.dutyWeekday) (h2 : getDay d2 = c.dutyWeekday)
    (ha1 : c.anchorDate ≤ d1) (ha2 : c.anchorDate ≤ d2) (k : Int)
    (hk : daysBetween d1 d2 = k * (7 * (c.participants.length : Int))) :
    getAssigneeForDate c d1 = getAssigneeForDate c d2 := by
  have ha : ((daysBetween c.anchorDate d1).toNat : Int) = d1 - c.anchorDate := by
    unfold daysBetween toLocalMidnight
    omega
  have hb : ((daysBetween c.anchorDate d2).toNat : Int) = d2 - c.anchorDate := by
    unfold daysBetween toLocalMidnight
    omega
  have hk' : d2 - d1 = k * (7 * (c.participants.length : Int)) := hk
  have hab : ((daysBetween c.anchorDate d2).toNat : Int) =
      ((daysBetween c.anchorDate d1).toNat : Int) +
        7 * (c.participants.length : Int) * k := by
    rw [ha, hb]
    linarith
  have hidx := rot_index_eq (daysBetween c.anchorDate d1).toNat
    (daysBetween c.anchorDate d2).toNat c.participants.length k hab
  rw [getAssigneeForDate_of_eq c d1 h1, getAssigneeForDate_of_eq c d2 h2, hidx]

theorem C3_periodicity_witness :
    getDay (mkDate 2025 7 13) = wedConfig.dutyWeekday ∧
    getDay (mkDate 2025 8 17) = wedConfig.dutyWeekday ∧
    wedConfig.anchorDate ≤ mkDate 2025 7 13 ∧
    wedConfig.anchorDate ≤ mkDate 2025 8 17 ∧
    daysBetween (mkDate 2025 7 13) (mkDate 2025 8 17) =
      1 * (7 * (wedConfig.participants.length : Int)) ∧
    getAssigneeForDate wedConfig (mkDate 2025 7 13) =
      getAssigneeForDate wedConfig (mkDate 2025 8 17) :=
  ⟨by decide, by decide, by decide, by decide, by decide,
    C3_periodicity wedConfig (mkDate 2025 7 13) (mkDate 2025 8 17)
      (by decide) (by decide) (by decide) (by decide) 1 (by decide)⟩

/-! ## Claim theorems: complete rotation cycle (C4) and the concrete schedule (C5) -/

theorem getDay_addDays_mul_seven (start : Int) (i : Nat) :
    getDay (addDays start (7 * (i : Int))) = getDay start := by
  unfold getDay addDays
  omega

theorem map_getElem?_range (l : List Participant) :
    (List.range l.length).map (fun j => l[j]?) = l.map some := by
  apply List.ext_getElem
  · simp
  · intro i h1 h2
    simp

theorem range_map_add_mod (n k : Nat) :
    (List.range n).map (fun i => (k + i) % n) = (List.range n).rotate (k % n) := by
  apply List.ext_getElem
  · simp
  · intro i h1 h2
    simp only [List.getElem_map, List.getElem_range, List.getElem_rotate, List.length_range]
    rw [Nat.add_comm i (k % n)]
    exact (Nat.mod_add_mod k n i).symm

/-- C4 (amended): starting from a duty-weekday date **on or after the anchor
date**, the `participants.length` consecutive duty occurrences (each 7 days
after the previous) have assignees forming a permutation of the participant
list — each participant exactly once.  (As originally stated — from *any*
starting duty date — the claim fails for starts before the anchor, where the
clamp repeats `participants[0]`.) -/
theorem C4_complete_cycle (c : RotationConfig) (start : Int)
    (hw : getDay start = c.dutyWeekday) (ha : c.anchorDate ≤ start) :
    ((List.range c.participants.length).map
      (fun i : Nat => getAssigneeForDate c (addDays start (7 * (i : Int))))).Perm
      (c.participants.map some) := by
  have hw0 : ∀ i : Nat, getAssigneeForDate c (addDays start (7 * (i : Int))) =
      c.participants[((start - c.anchorDate).toNat / 7 + i) % c.participants.length]? := by
    intro i
    have hday : getDay (addDays start (7 * (i : Int))) = c.dutyWeekday := by
      rw [getDay_addDays_mul_seven]; exact hw
    rw [getAssigneeForDate_of_eq c _ hday]
    have hdiff : (daysBetween c.anchorDate (addDays start (7 * (i : Int)))).toNat =
        (start - c.anchorDate).toNat + 7 * i := by
      unfold daysBetween toLocalMidnight addDays
      omega
    have hdiv : ((start - c.anchorDate).toNat + 7 * i) / 7 =
        (start - c.anchorDate).toNat / 7 + i := by omega
    rw [hdiff, hdiv]
  have e1 : ((List.range c.participants.length).map
      (fun i : Nat => getAssigneeForDate c (addDays start (7 * (i : Int))))) =
      ((List.range c.participants.length).map
        (fun i => ((start - c.anchorDate).toNat / 7 + i) % c.participants.length)).map
        (fun j => c.participants[j]?) := by
    rw [List.map_map]
    exact List.map_congr_left (fun i _ => hw0 i)
  rw [e1, range_map_add_mod, ← map_getElem?_range c.participants]
  exact List.Perm.map _ (List.rotate_perm _ _)

theorem C4_complete_cycle_witness :
    getDay (mkDate 2025 7 13) = wedConfig.dutyWeekday ∧
    wedConfig.anchorDate ≤ mkDate 2025 7 13 ∧
    ((List.range wedConfig.participants.length).map
      (fun i : Nat => getAssigneeForDate wedConfig (addDays (mkDate 2025 7 13) (7 * (i : Int))))).Perm
      (wedConfig.participants.map some) :=
  ⟨by decide, by decide,
    C4_complete_cycle wedConfig (mkDate 2025 7 13) (by decide) (by decide)⟩

/-- C4 counterexample: 2025-08-07 is a Thursday (the duty weekday of the
`BinDuty.jsx` variant) strictly before the anchor; the five consecutive duty
occurrences starting there assign Basser twice and Vale never, so they do not
comprise each participant exactly once. -/
theorem C4_counterexample :
    getDay (mkDate 2025 7 7) = thuConfig.dutyWeekday ∧
    (⟨"5", "Vale"⟩ : Participant) ∈ thuConfig.participants ∧
    ((List.range thuConfig.participants.length).map
      (fun i : Nat => getAssigneeForDate thuConfig (addDays (mkDate 2025 7 7) (7 * (i : Int))))).count
        (some ⟨"5", "Vale"⟩) = 0 ∧
    ((List.range thuConfig.participants.length).map
      (fun i : Nat => getAssigneeForDate thuConfig (addDays (mkDate 2025 7 7) (7 * (i : Int))))).count
        (some ⟨"1", "Basser"⟩) = 2 ∧
    ¬ (((List.range thuConfig.participants.length).map
      (fun i : Nat => getAssigneeForDate thuConfig (addDays (mkDate 2025 7 7) (7 * (i : Int))))).Perm
      (thuConfig.participants.map some)) := by
  refine ⟨by decide, by decide, by decide, by decide, ?_⟩
  intro hperm
  have := hperm.count_eq (some ⟨"5", "Vale"⟩)
  revert this
  decide

/-- C5 counterexample: under the Wednesday configuration the date 2025-09-17
is 35 days (= 5 whole weeks) after the anchor, so the rotation index is
`5 mod 5 = 0` and the assignee is Basser — not Leshinsky as the claim
states. -/
theorem C5_counterexample :
    getAssigneeForDate wedConfig (mkDate 2025 8 17) ≠ some ⟨"4", "Leshinsky"⟩ := by decide

/-- C5 (amended): with anchor 2025-08-13, duty weekday Wednesday, and the
five tenants in order, the schedule reads 2025-08-13 → Basser,
2025-08-20 → Berman, 2025-08-27 → Galet, and 2025-09-17 → Basser (week 5
wraps around to the first participant). -/
theorem C5_schedule :
    getAssigneeForDate wedConfig (mkDate 2025 7 13) = some ⟨"1", "Basser"⟩ ∧
    getAssigneeForDate wedConfig (mkDate 2025 7 20) = some ⟨"2", "Berman"⟩ ∧
    getAssigneeForDate wedConfig (mkDate 2025 7 27) = some ⟨"3", "Galet"⟩ ∧
    getAssigneeForDate wedConfig (mkDate 2025 8 17) = some ⟨"1", "Basser"⟩ := by decide

/-! ## Claim theorems: the 12-occurrence enumeration (C6) -/

/-- Days from `z` (inclusive) to the next date whose weekday is the duty
weekday; lies in `[0, 7)` for a genuine weekday configuration. -/
def dutyOff (c : RotationConfig) (z : Int) : Nat := ((c.dutyWeekday - getDay z) % 7).toNat

theorem dutyOff_lt_seven (c : RotationConfig) (z : Int) (h0 : 0 ≤ c.dutyWeekday)
    (h7 : c.dutyWeekday < 7) : dutyOff c z < 7 := by
  unfold dutyOff getDay
  omega

theorem getDay_add_dutyOff (c : RotationConfig) (z : Int) (h0 : 0 ≤ c.dutyWeekday)
    (h7 : c.dutyWeekday < 7) : getDay (z + (dutyOff c z : Int)) = c.dutyWeekday := by
  unfold dutyOff getDay
  omega

theorem dutyOff_eq_zero_iff (c : RotationConfig) (z : Int) (h0 : 0 ≤ c.dutyWeekday)
    (h7 : c.dutyWeekday < 7) : dutyOff c z = 0 ↔ getDay z = c.dutyWeekday := by
  unfold dutyOff getDay
  constructor <;> intro h <;> omega

theorem dutyOff_succ_of_zero (c : RotationConfig) (z : Int) (h0 : 0 ≤ c.dutyWeekday)
    (h7 : c.dutyWeekday < 7) (h : dutyOff c z = 0) : dutyOff c (z + 1) = 6 := by
  unfold dutyOff getDay at *
  omega

theorem dutyOff_succ_of_pos (c : RotationConfig) (z : Int) (h0 : 0 ≤ c.dutyWeekday)
    (h7 : c.dutyWeekday < 7) (h : 0 < dutyOff c z) : dutyOff c (z + 1) = dutyOff c z - 1 := by
  unfold dutyOff getDay at *
  omega

theorem getDay_ne_of_lt_dutyOff (c : RotationConfig) (z : Int) (j : Nat)
    (h0 : 0 ≤ c.dutyWeekday) (h7 : c.dutyWeekday < 7) (hj : j < dutyOff c z) :
    getDay (z + (j : Int)) ≠ c.dutyWeekday := by
  unfold dutyOff getDay at *
  omega

theorem occScan_zero_need (c : RotationConfig) (start : Int) (fuel i : Nat) :
    occScan c start fuel 0 i = [] := by
  cases fuel <;> rfl

theorem occScan_succ (c : RotationConfig) (start : Int) (fuel need i : Nat) :
    occScan c start (fuel + 1) (need + 1) i =
      if getDay (addDays start (i : Int)) = c.dutyWeekday then
        (addDays start (i : Int), getAssigneeForDate c (addDays start (i : Int))) ::
          occScan c start fuel need (i + 1)
      else occScan c start fuel (need + 1) (i + 1) := rfl

theorem occScan_skip (c : RotationConfig) (start : Int) (h0 : 0 ≤ c.dutyWeekday)
    (h7 : c.dutyWeekday < 7) : ∀ (k i fuel need : Nat),
    dutyOff c (start + (i : Int)) = k →
    occScan c start (fuel + k) (need + 1) i = occScan c start fuel (need + 1) (i + k) := by
  intro k
  induction k with
  | zero => intro i fuel need _; rfl
  | succ k ih =>
    intro i fuel need hk
    have hne : getDay (start + (i : Int)) ≠ c.dutyWeekday := by
      intro hcontra
      rw [(dutyOff_eq_zero_iff c _ h0 h7).mpr hcontra] at hk
      omega
    have hstep : occScan c start (fuel + k + 1) (need + 1) i =
        occScan c start (fuel + k) (need + 1) (i + 1) := by
      rw [occScan_succ]
      rw [if_neg (by unfold addDays; exact hne)]
    have hoff : dutyOff c (start + ((i + 1 : Nat) : Int)) = k := by
      have := dutyOff_succ_of_pos c (start + (i : Int)) h0 h7 (by omega)
      rw [hk] at this
      have hcast : start + ((i + 1 : Nat) : Int) = start + (i : Int) + 1 := by push_cast; ring
      rw [hcast, this]
      omega
    have := ih (i + 1) fuel need hoff
    rw [show fuel + (k + 1) = fuel + k + 1 by omega, hstep, this,
      show i + 1 + k = i + (k + 1) by omega]

theorem occScan_closed (c : RotationConfig) (start : Int) (h0 : 0 ≤ c.dutyWeekday)
    (h7 : c.dutyWeekday < 7) : ∀ (need i fuel : Nat),
    dutyOff c (start + (i : Int)) + 7 * need < fuel →
    occScan c start fuel (need + 1) i = (List.range (need + 1)).map (fun j : Nat =>
      (start + (i : Int) + (dutyOff c (start + (i : Int)) : Int) + 7 * (j : Int),
       getAssigneeForDate c
         (start + (i : Int) + (dutyOff c (start + (i : Int)) : Int) + 7 * (j : Int)))) := by
  intro need
  induction need with
  | zero =>
    intro i fuel hfuel
    obtain ⟨f2, rfl⟩ : ∃ f2, fuel = f2 + dutyOff c (start + (i : Int)) :=
      ⟨fuel - dutyOff c (start + (i : Int)), by omega⟩
    rw [occScan_skip c start h0 h7 (dutyOff c (start + (i : Int))) i f2 0 rfl]
    have hday : getDay (start + ((i + dutyOff c (start + (i : Int)) : Nat) : Int)) =
        c.dutyWeekday := by
      have := getDay_add_dutyOff c (start + (i : Int)) h0 h7
      have hcast : start + ((i + dutyOff c (start + (i : Int)) : Nat) : Int) =
          start + (i : Int) + (dutyOff c (start + (i : Int)) : Int) := by push_cast; ring
      rw [hcast]
      exact this
    obtain ⟨f3, rfl⟩ : ∃ f3, f2 = f3 + 1 := ⟨f2 - 1, by omega⟩
    rw [occScan_succ, if_pos (by unfold addDays; exact hday), occScan_zero_need]
    rw [show List.range 1 = [0] from rfl]
    simp only [List.map_cons, List.map_nil]
    have hd : start + (i : Int) + (dutyOff c (start + (i : Int)) : Int) + 7 * ((0 : Nat) : Int) =
        addDays start ((i + dutyOff c (start + (i : Int)) : Nat) : Int) := by
      unfold addDays; push_cast; ring
    rw [hd]
  | succ need ih =>
    intro i fuel hfuel
    obtain ⟨f2, rfl⟩ : ∃ f2, fuel = f2 + dutyOff c (start + (i : Int)) :=
      ⟨fuel - dutyOff c (start + (i : Int)), by omega⟩
    rw [occScan_skip c start h0 h7 (dutyOff c (start + (i : Int))) i f2 (need + 1) rfl]
    have hday : getDay (start + ((i + dutyOff c (start + (i : Int)) : Nat) : Int)) =
        c.dutyWeekday := by
      have := getDay_add_dutyOff c (start + (i : Int)) h0 h7
      have hcast : start + ((i + dutyOff c (start + (i : Int)) : Nat) : Int) =
          start + (i : Int) + (dutyOff c (start + (i : Int)) : Int) := by push_cast; ring
      rw [hcast]
      exact this
    obtain ⟨f3, rfl⟩ : ∃ f3, f2 = f3 + 1 := ⟨f2 - 1, by omega⟩
    rw [occScan_succ, if_pos (by unfold addDays; exact hday)]
    have hoff6 : dutyOff c (start + ((i + dutyOff c (start + (i : Int)) + 1 : Nat) : Int)) = 6 := by
      have hz := dutyOff_succ_of_zero c
        (start + ((i + dutyOff c (start + (i : Int)) : Nat) : Int)) h0 h7
        ((dutyOff_eq_zero_iff c _ h0 h7).mpr hday)
      have hcast : start + ((i + dutyOff c (start + (i : Int)) + 1 : Nat) : Int) =
          start + ((i + dutyOff c (start + (i : Int)) : Nat) : Int) + 1 := by push_cast; ring
      rw [hcast]
      exact hz
    have hih := ih (i + dutyOff c (start + (i : Int)) + 1) f3 (by rw [hoff6]; omega)
    rw [hih, hoff6]
    conv_rhs => rw [List.range_succ_eq_map, List.map_cons, List.map_map]
    have hd : start + (i : Int) + (dutyOff c (start + (i : Int)) : Int) + 7 * ((0 : Nat) : Int) =
        addDays start ((i + dutyOff c (start + (i : Int)) : Nat) : Int) := by
      unfold addDays; push_cast; ring
    rw [hd]
    refine congrArg _ (List.map_congr_left ?_)
    intro j hj
    have hdj : start + ((i + dutyOff c (start + (i : Int)) + 1 : Nat) : Int) +
        ((6 : Nat) : Int) + 7 * (j : Int) =
        start + (i : Int) + (dutyOff c (start + (i : Int)) : Int) + 7 * ((Nat.succ j : Nat) : Int) := by
      push_cast; ring
    simp only [Function.comp_apply, hdj]

theorem getDay_add_seven_mul (z : Int) (j : Nat) : getDay (z + 7 * (j : Int)) = getDay z := by
  unfold getDay
  omega

theorem twelveWeeks_closed (c : RotationConfig) (start : Int) (h0 : 0 ≤ c.dutyWeekday)
    (h7 : c.dutyWeekday < 7) :
    twelveWeeks c start = (List.range 12).map (fun j : Nat =>
      (start + (dutyOff c start : Int) + 7 * (j : Int),
       getAssigneeForDate c (start + (dutyOff c start : Int) + 7 * (j : Int)))) := by
  have h := occScan_closed c start h0 h7 11 0 120
    (by have := dutyOff_lt_seven c (start + ((0 : Nat) : Int)) h0 h7; omega)
  have h12 : (11 + 1 : Nat) = 12 := rfl
  rw [h12] at h
  unfold twelveWeeks
  rw [h]
  simp only [Nat.cast_zero, add_zero]

/-- C6: for every start date (and a genuine weekday as the duty weekday),
`twelveWeeks` — the 12-occurrence enumeration with its 120-day scan cap —
returns exactly 12 entries, strictly increasing in date, each on the duty
weekday, and its first entry is the earliest duty-weekday date on or after
the start date (the start date itself only when it falls on the duty
weekday). -/
theorem C6_twelveWeeks_spec (c : RotationConfig) (start : Int)
    (h0 : 0 ≤ c.dutyWeekday) (h7 : c.dutyWeekday < 7) :
    (twelveWeeks c start).length = 12 ∧
    (twelveWeeks c start).Pairwise (fun e1 e2 => e1.1 < e2.1) ∧
    (∀ e ∈ twelveWeeks c start, getDay e.1 = c.dutyWeekday) ∧
    (∀ e0, (twelveWeeks c start).head? = some e0 →
      start ≤ e0.1 ∧ getDay e0.1 = c.dutyWeekday ∧
      ∀ z : Int, start ≤ z → z < e0.1 → getDay z ≠ c.dutyWeekday) := by
  have hwd := getDay_add_dutyOff c start h0 h7
  rw [twelveWeeks_closed c start h0 h7]
  refine ⟨by simp, ?_, ?_, ?_⟩
  · rw [List.pairwise_map]
    refine List.Pairwise.imp ?_ (List.pairwise_lt_range 12)
    intro a b hab
    simp only
    omega
  · intro e he
    rw [List.mem_map] at he
    obtain ⟨j, hj, rfl⟩ := he
    simp only
    have h7j := getDay_add_seven_mul (start + (dutyOff c start : Int)) j
    unfold getDay at *
    omega
  · intro e0 he0
    rw [List.head?_map, show (List.range 12).head? = some 0 from rfl] at he0
    simp only [Option.map] at he0
    have he0' := (Option.some.inj he0).symm
    subst he0'
    simp only [Nat.cast_zero, mul_zero, add_zero]
    refine ⟨by omega, by simpa using hwd, ?_⟩
    intro z hz1 hz2
    have hj : (z - start).toNat < dutyOff c start := by omega
    have hne := getDay_ne_of_lt_dutyOff c start (z - start).toNat h0 h7 hj
    have hz : start + ((z - start).toNat : Int) = z := by omega
    rw [hz] at hne
    exact hne

theorem C6_twelveWeeks_spec_witness :
    (0 ≤ wedConfig.dutyWeekday ∧ wedConfig.dutyWeekday < 7) ∧
    ((twelveWeeks wedConfig (mkDate 2025 7 15)).length = 12 ∧
     (twelveWeeks wedConfig (mkDate 2025 7 15)).Pairwise (fun e1 e2 => e1.1 < e2.1) ∧
     (∀ e ∈ twelveWeeks wedConfig (mkDate 2025 7 15), getDay e.1 = wedConfig.dutyWeekday) ∧
     (∀ e0, (twelveWeeks wedConfig (mkDate 2025 7 15)).head? = some e0 →
       mkDate 2025 7 15 ≤ e0.1 ∧ getDay e0.1 = wedConfig.dutyWeekday ∧
       ∀ z : Int, mkDate 2025 7 15 ≤ z → z < e0.1 → getDay z ≠ wedConfig.dutyWeekday)) :=
  ⟨⟨by decide, by decide⟩,
    C6_twelveWeeks_spec wedConfig (mkDate 2025 7 15) (by decide) (by decide)⟩

/-! ## Claim theorems: next occurrence for a participant (C7) -/

theorem nextScan_succ (c : RotationConfig) (today : Int) (pid : String) (fuel i : Nat) :
    nextScan c today pid (fuel + 1) i =
      if getDay (addDays today (i : Int)) ≠ c.dutyWeekday then nextScan c today pid fuel (i + 1)
      else
        match getAssigneeForDate c (addDays today (i : Int)) with
        | some who => if who.id = pid then some (addDays today (i : Int))
                      else nextScan c today pid fuel (i + 1)
        | none => nextScan c today pid fuel (i + 1) := rfl

theorem nextScan_some (c : RotationConfig) (today : Int) (pid : String) :
    ∀ (fuel i : Nat) (d : Int), nextScan c today pid fuel i = some d →
      today + (i : Int) ≤ d ∧ d < today + (i : Int) + (fuel : Int) ∧
      getDay d = c.dutyWeekday ∧
      (∃ who, getAssigneeForDate c d = some who ∧ who.id = pid) ∧
      (∀ e : Int, today + (i : Int) ≤ e → e < d → getDay e = c.dutyWeekday →
        ∀ who, getAssigneeForDate c e = some who → who.id ≠ pid) := by
  intro fuel
  induction fuel with
  | zero => intro i d hd; exact absurd hd (by unfold nextScan; simp)
  | succ fuel ih =>
    intro i d hd
    rw [nextScan_succ] at hd
    have hcand : addDays today (i : Int) = today + (i : Int) := rfl
    by_cases hw : getDay (addDays today (i : Int)) ≠ c.dutyWeekday
    · rw [if_pos hw] at hd
      obtain ⟨ih1, ih2, ih3, ih4, ih5⟩ := ih (i + 1) d hd
      push_cast at ih1 ih2
      refine ⟨by omega, by omega, ih3, ih4, ?_⟩
      intro e he1 he2 hew who hwho
      rcases eq_or_lt_of_le he1 with heq | hlt
      · rw [hcand] at hw
        exact absurd hew (heq ▸ hw)
      · exact ih5 e (by push_cast; omega) he2 hew who hwho
    · rw [if_neg hw] at hd
      rw [not_not] at hw
      rcases hass : getAssigneeForDate c (addDays today (i : Int)) with _ | who
      · rw [hass] at hd
        obtain ⟨ih1, ih2, ih3, ih4, ih5⟩ := ih (i + 1) d hd
        push_cast at ih1 ih2
        refine ⟨by omega, by omega, ih3, ih4, ?_⟩
        intro e he1 he2 hew who hwho
        rcases eq_or_lt_of_le he1 with heq | hlt
        · rw [hcand] at hass
          rw [← heq] at hwho
          rw [hass] at hwho
          exact Option.noConfusion hwho
        · exact ih5 e (by push_cast; omega) he2 hew who hwho
      · rw [hass] at hd
        dsimp only at hd
        by_cases hid : who.id = pid
        · rw [if_pos hid] at hd
          have hdd : d = today + (i : Int) := by
            rw [← hcand]; exact (Option.some.inj hd).symm
          subst hdd
          refine ⟨le_refl _, by omega, by rw [← hcand]; exact hw, ⟨who, by rw [← hcand]; exact hass, hid⟩, ?_⟩
          intro e he1 he2 _ _ _
          omega
        · rw [if_neg hid] at hd
          obtain ⟨ih1, ih2, ih3, ih4, ih5⟩ := ih (i + 1) d hd
          push_cast at ih1 ih2
          refine ⟨by omega, by omega, ih3, ih4, ?_⟩
          intro e he1 he2 hew who' hwho'
          rcases eq_or_lt_of_le he1 with heq | hlt
          · rw [hcand] at hass
            rw [← heq] at hwho'
            rw [hass] at hwho'
            have : who' = who := (Option.some.inj hwho').symm
            rw [this]
            exact hid
          · exact ih5 e (by push_cast; omega) he2 hew who' hwho'

theorem nextScan_none_of_missing (c : RotationConfig) (today : Int) (pid : String)
    (hmiss : ∀ p ∈ c.participants, p.id ≠ pid) :
    ∀ (fuel i : Nat), nextScan c today pid fuel i = none := by
  intro fuel
  induction fuel with
  | zero => intro i; rfl
  | succ fuel ih =>
    intro i
    rw [nextScan_succ]
    by_cases hw : getDay (addDays today (i : Int)) ≠ c.dutyWeekday
    · rw [if_pos hw]; exact ih (i + 1)
    · rw [if_neg hw]
      rcases hass : getAssigneeForDate c (addDays today (i : Int)) with _ | who
      · exact ih (i + 1)
      · dsimp only
        rw [if_neg (hmiss who (getAssigneeForDate_mem hass))]
        exact ih (i + 1)

/-- C7: when `nextForSelected` returns a date, that date is within the 365-day
scan horizon, falls on the duty weekday, resolves to an assignee with the
requested id, and no earlier duty-weekday date in the scanned range resolves
to that id; and when the id does not occur among the participants the result
is `none` rather than an error. -/
theorem C7_nextForSelected_spec (c : RotationConfig) (today : Int) (pid : String) :
    (∀ d : Int, nextForSelected c today pid = some d →
      today ≤ d ∧ d < today + 365 ∧ getDay d = c.dutyWeekday ∧
      (∃ who, getAssigneeForDate c d = some who ∧ who.id = pid) ∧
      (∀ e : Int, today ≤ e → e < d → getDay e = c.dutyWeekday →
        ∀ who, getAssigneeForDate c e = some who → who.id ≠ pid)) ∧
    ((∀ p ∈ c.participants, p.id ≠ pid) → nextForSelected c today pid = none) := by
  constructor
  · intro d hd
    unfold nextForSelected at hd
    by_cases hpid : pid = ""
    · rw [if_pos hpid] at hd
      exact absurd hd (by simp)
    · rw [if_neg hpid] at hd
      obtain ⟨h1, h2, h3, h4, h5⟩ := nextScan_some c today pid 365 0 d hd
      push_cast at h1 h2
      refine ⟨by omega, by omega, h3, h4, ?_⟩
      intro e he1 he2
      exact h5 e (by push_cast; omega) he2
  · intro hmiss
    unfold nextForSelected
    by_cases hpid : pid = ""
    · rw [if_pos hpid]
    · rw [if_neg hpid]
      exact nextScan_none_of_missing c today pid hmiss 365 0

theorem C7_nextForSelected_spec_witness :
    nextForSelected wedConfig (mkDate 2025 7 13) "3" = some (mkDate 2025 7 27) ∧
    (mkDate 2025 7 13 ≤ mkDate 2025 7 27 ∧ mkDate 2025 7 27 < mkDate 2025 7 13 + 365 ∧
      getDay (mkDate 2025 7 27) = wedConfig.dutyWeekday ∧
      (∃ who, getAssigneeForDate wedConfig (mkDate 2025 7 27) = some who ∧ who.id = "3") ∧
      (∀ e : Int, mkDate 2025 7 13 ≤ e → e < mkDate 2025 7 27 →
        getDay e = wedConfig.dutyWeekday →
        ∀ who, getAssigneeForDate wedConfig e = some who → who.id ≠ "3")) :=
  ⟨by decide,
    (C7_nextForSelected_spec wedConfig (mkDate 2025 7 13) "3").1 (mkDate 2025 7 27) (by decide)⟩

/-! ## Claim theorems: the month grid (C8, C10) -/

theorem getDay_bounds (z : Int) : 0 ≤ getDay z ∧ getDay z < 7 := by
  unfold getDay
  omega

theorem mkDate_day_shift (y m d t : Int) : mkDate y m (d + t) = mkDate y m d + t := by
  unfold mkDate
  ring

/-- The day after a date, rebuilt from its civil fields (as the trailing loop
of `buildMonthGrid` does), is exactly the successor day number. -/
theorem next_cell_date (z : Int) :
    mkDate (getFullYear z) (getMonth z) (getDate z + 1) = z + 1 := by
  have h := mkDate_day_shift (getFullYear z) (getMonth z) (getDate z) 1
  rw [h, mkDate_toCivil]

/-- Adjacent cells of a grid hold consecutive day numbers. -/
def Consec (g : List Cell) : Prop :=
  ∀ i : Nat, i + 1 < g.length → ∀ c1 c2 : Cell,
    g[i]? = some c1 → g[i + 1]? = some c2 → c2.date = c1.date + 1

theorem consec_append_one {g : List Cell} {last c : Cell} (hc : Consec g)
    (hlast : g.getLast? = some last) (hd : c.date = last.date + 1) :
    Consec (g ++ [c]) := by
  intro i hi c1 c2 h1 h2
  rw [List.length_append, List.length_singleton] at hi
  rcases Nat.lt_or_ge (i + 1) g.length with hlt | hge
  · rw [List.getElem?_append_left (by omega)] at h1
    rw [List.getElem?_append_left hlt] at h2
    exact hc i hlt c1 c2 h1 h2
  · have hieq : i + 1 = g.length := by omega
    rw [List.getElem?_append_left (by omega)] at h1
    rw [List.getElem?_append_right (by omega), hieq] at h2
    simp at h2
    have hlast' : g[i]? = some last := by
      rw [List.getLast?_eq_getElem?] at hlast
      rw [show i = g.length - 1 by omega]
      exact hlast
    rw [h1] at hlast'
    have hc1 : c1 = last := Option.some.inj hlast'
    rw [h2] at hd
    rw [hc1]
    exact hd

theorem fillGridAux_length : ∀ (fuel : Nat) (g : List Cell), g ≠ [] →
    g.length ≤ 42 → 42 ≤ g.length + fuel → (fillGridAux fuel g).length = 42 := by
  intro fuel
  induction fuel with
  | zero => intro g _ h1 h2; unfold fillGridAux; omega
  | succ fuel ih =>
    intro g hne h1 h2
    unfold fillGridAux
    rcases hlast : g.getLast? with _ | last
    · exact absurd (List.getLast?_eq_none_iff.mp hlast) hne
    · dsimp only
      by_cases h42 : g.length < 42
      · rw [if_pos h42]
        have := ih (g ++ [⟨mkDate (getFullYear last.date) (getMonth last.date)
          (getDate last.date + 1), false⟩]) (by simp) (by simp; omega) (by simp; omega)
        simpa using this
      · rw [if_neg h42]
        omega

theorem fillGridAux_append : ∀ (fuel : Nat) (g : List Cell),
    ∃ t, fillGridAux fuel g = g ++ t := by
  intro fuel
  induction fuel with
  | zero => intro g; exact ⟨[], by simp [fillGridAux]⟩
  | succ fuel ih =>
    intro g
    unfold fillGridAux
    rcases hlast : g.getLast? with _ | last
    · exact ⟨[], by simp⟩
    · dsimp only
      by_cases h42 : g.length < 42
      · rw [if_pos h42]
        obtain ⟨t, ht⟩ := ih (g ++ [⟨mkDate (getFullYear last.date) (getMonth last.date)
          (getDate last.date + 1), false⟩])
        exact ⟨[⟨mkDate (getFullYear last.date) (getMonth last.date)
          (getDate last.date + 1), false⟩] ++ t, by rw [ht, List.append_assoc]⟩
      · exact ⟨[], by rw [if_neg h42]; simp⟩

theorem fillGridAux_consec : ∀ (fuel : Nat) (g : List Cell), Consec g →
    Consec (fillGridAux fuel g) := by
  intro fuel
  induction fuel with
  | zero => intro g hg; exact hg
  | succ fuel ih =>
    intro g hg
    unfold fillGridAux
    rcases hlast : g.getLast? with _ | last
    · exact hg
    · dsimp only
      by_cases h42 : g.length < 42
      · rw [if_pos h42]
        refine ih _ (consec_append_one hg hlast ?_)
        exact next_cell_date last.date
      · rw [if_neg h42]
        exact hg

/-- The `startWeekday` of `buildMonthGrid`: weekday of the 1st of the month. -/
def swOf (y mo : Int) : Nat := (getDay (mkDate y mo 1)).toNat

/-- The `daysInMonth` of `buildMonthGrid`: `new Date(year, month + 1, 0).getDate()`. -/
def dimOf (y mo : Int) : Nat := (getDate (mkDate y (mo + 1) 0)).toNat

/-- The grid before the trailing fill loop: leading previous-month cells,
then the days of the month. -/
def monthBase (y mo : Int) : List Cell :=
  (List.range (swOf y mo)).map
    (fun i : Nat => (⟨mkDate y mo (1 - ((swOf y mo : Int) - (i : Int))), false⟩ : Cell)) ++
  (List.range (dimOf y mo)).map (fun k : Nat => (⟨mkDate y mo ((k : Int) + 1), true⟩ : Cell))

theorem buildMonthGrid_eq (a : Int) :
    buildMonthGrid a = fillGrid (monthBase (getFullYear a) (getMonth a)) := rfl

theorem monthBase_length (y mo : Int) : (monthBase y mo).length = swOf y mo + dimOf y mo := by
  simp [monthBase]

theorem swOf_le (y mo : Int) : swOf y mo ≤ 6 := by
  have := getDay_bounds (mkDate y mo 1)
  unfold swOf
  omega

theorem dimOf_bounds (y mo : Int) : 1 ≤ dimOf y mo ∧ dimOf y mo ≤ 31 := by
  have := getDate_bounds (mkDate y (mo + 1) 0)
  unfold dimOf
  omega

theorem monthBase_ne_nil (y mo : Int) : monthBase y mo ≠ [] := by
  apply List.ne_nil_of_length_pos
  rw [monthBase_length]
  have := dimOf_bounds y mo
  omega

/-- Every base cell holds the date `firstOfMonth + (index - startWeekday)`,
and is in-month exactly when its index is at least `startWeekday`. -/
theorem monthBase_date (y mo : Int) (j : Nat) (hj : j < swOf y mo + dimOf y mo) :
    ∃ cell : Cell, (monthBase y mo)[j]? = some cell ∧
      cell.date = mkDate y mo 1 + ((j : Int) - (swOf y mo : Int)) ∧
      (cell.inMonth = true ↔ swOf y mo ≤ j) := by
  unfold monthBase
  rcases Nat.lt_or_ge j (swOf y mo) with hlt | hge
  · rw [List.getElem?_append_left (by simpa using hlt)]
    refine ⟨⟨mkDate y mo (1 - ((swOf y mo : Int) - (j : Int))), false⟩, ?_, ?_, ?_⟩
    · simp [hlt]
    · have harg : 1 - ((swOf y mo : Int) - (j : Int)) = 1 + ((j : Int) - (swOf y mo : Int)) := by
        ring
      rw [harg, mkDate_day_shift]
    · simp
      omega
  · rw [List.getElem?_append_right (by simpa using hge)]
    have hk : j - swOf y mo < dimOf y mo := by omega
    refine ⟨⟨mkDate y mo (((j - swOf y mo : Nat) : Int) + 1), true⟩, ?_, ?_, ?_⟩
    · simp [hk]
    · have harg : ((j - swOf y mo : Nat) : Int) + 1 = 1 + ((j : Int) - (swOf y mo : Int)) := by
        omega
      rw [harg, mkDate_day_shift]
    · simp
      omega

theorem monthBase_consec (y mo : Int) : Consec (monthBase y mo) := by
  intro i hi c1 c2 h1 h2
  rw [monthBase_length] at hi
  obtain ⟨d1, hd1, hdate1, _⟩ := monthBase_date y mo i (by omega)
  obtain ⟨d2, hd2, hdate2, _⟩ := monthBase_date y mo (i + 1) hi
  rw [h1] at hd1
  rw [h2] at hd2
  rw [← Option.some.inj hd1, ← Option.some.inj hd2] at *
  rw [hdate1, hdate2]
  push_cast
  ring

theorem consec_date_from_head : ∀ (g : List Cell), Consec g →
    ∀ (i : Nat), i < g.length → ∀ c0 ci : Cell, g[0]? = some c0 → g[i]? = some ci →
      ci.date = c0.date + (i : Int) := by
  intro g hc i
  induction i with
  | zero =>
    intro h c0 ci h0 hi
    rw [h0] at hi
    rw [← Option.some.inj hi]
    simp
  | succ i ih =>
    intro h c0 ci h0 hi
    have hilen : i < g.length := by omega
    have hcp : g[i]? = some (g.get ⟨i, hilen⟩) := List.getElem?_eq_some.mpr ⟨hilen, rfl⟩
    have hstep := hc i (by omega) (g.get ⟨i, hilen⟩) ci hcp hi
    have hbase := ih hilen c0 (g.get ⟨i, hilen⟩) h0 hcp
    rw [hstep, hbase]
    push_cast
    ring

/-- C8: `buildMonthGrid` always returns exactly 42 cells; the cell at index
`startWeekday` is the 1st of the anchor's month, marked in-month; every cell
before it is marked not-in-month; and the grid depends only on the anchor's
year and month. -/
theorem C8_buildMonthGrid_spec (a : Int) :
    (buildMonthGrid a).length = 42 ∧
    (buildMonthGrid a)[swOf (getFullYear a) (getMonth a)]? =
      some ⟨mkDate (getFullYear a) (getMonth a) 1, true⟩ ∧
    (∀ j : Nat, j < swOf (getFullYear a) (getMonth a) →
      ∀ cell : Cell, (buildMonthGrid a)[j]? = some cell → cell.inMonth = false) ∧
    (∀ b : Int, getFullYear b = getFullYear a → getMonth b = getMonth a →
      buildMonthGrid b = buildMonthGrid a) := by
  obtain ⟨t, ht⟩ := fillGridAux_append 42 (monthBase (getFullYear a) (getMonth a))
  have hb_len := monthBase_length (getFullYear a) (getMonth a)
  have hsw := swOf_le (getFullYear a) (getMonth a)
  have hdim := dimOf_bounds (getFullYear a) (getMonth a)
  have hgrid : buildMonthGrid a = monthBase (getFullYear a) (getMonth a) ++ t := by
    rw [buildMonthGrid_eq]
    unfold fillGrid
    exact ht
  refine ⟨?_, ?_, ?_, ?_⟩
  · rw [buildMonthGrid_eq]
    unfold fillGrid
    exact fillGridAux_length 42 _ (monthBase_ne_nil _ _) (by omega) (by omega)
  · rw [hgrid, List.getElem?_append_left (by omega)]
    obtain ⟨cell, hcell, hdate, hin⟩ :=
      monthBase_date (getFullYear a) (getMonth a) (swOf (getFullYear a) (getMonth a)) (by omega)
    rw [hcell]
    obtain ⟨cd, ci⟩ := cell
    simp only at hdate hin
    have h1 : cd = mkDate (getFullYear a) (getMonth a) 1 := by rw [hdate]; ring
    have h2 : ci = true := hin.mpr (Nat.le_refl _)
    rw [h1, h2]
  · intro j hj cell hcell
    rw [hgrid, List.getElem?_append_left (by omega)] at hcell
    obtain ⟨cell', hcell', _, hin⟩ := monthBase_date (getFullYear a) (getMonth a) j (by omega)
    rw [hcell'] at hcell
    rw [← Option.some.inj hcell]
    have hne : ¬ (swOf (getFullYear a) (getMonth a) ≤ j) := by omega
    cases hcim : cell'.inMonth
    · rfl
    · exact absurd (hin.mp hcim) hne
  · intro b hYb hMb
    unfold buildMonthGrid
    rw [hYb, hMb]

theorem C8_buildMonthGrid_spec_witness :
    (buildMonthGrid (mkDate 2025 7 13)).length = 42 ∧
    getFullYear (mkDate 2025 7 1) = getFullYear (mkDate 2025 7 13) ∧
    getMonth (mkDate 2025 7 1) = getMonth (mkDate 2025 7 13) ∧
    buildMonthGrid (mkDate 2025 7 1) = buildMonthGrid (mkDate 2025 7 13) :=
  ⟨(C8_buildMonthGrid_spec (mkDate 2025 7 13)).1, by decide, by decide,
    (C8_buildMonthGrid_spec (mkDate 2025 7 13)).2.2.2 (mkDate 2025 7 1)
      (by decide) (by decide)⟩

/-- C10: every grid is 42 consecutive calendar days: cell 0 is the last
Sunday on or before the 1st of the month, each next cell is exactly one day
later, and the cell at index `i` falls on weekday `i mod 7` (0 = Sunday). -/
theorem C10_grid_consecutive_days (a : Int) :
    (buildMonthGrid a).length = 42 ∧
    (∀ i : Nat, i + 1 < 42 → ∀ c1 c2 : Cell,
      (buildMonthGrid a)[i]? = some c1 → (buildMonthGrid a)[i + 1]? = some c2 →
      c2.date = c1.date + 1) ∧
    (∀ c0 : Cell, (buildMonthGrid a)[0]? = some c0 →
      getDay c0.date = 0 ∧ c0.date ≤ mkDate (getFullYear a) (getMonth a) 1 ∧
      mkDate (getFullYear a) (getMonth a) 1 < c0.date + 7) ∧
    (∀ i : Nat, i < 42 → ∀ cell : Cell, (buildMonthGrid a)[i]? = some cell →
      getDay cell.date = (i : Int) % 7) := by
  obtain ⟨t, ht⟩ := fillGridAux_append 42 (monthBase (getFullYear a) (getMonth a))
  have hb_len := monthBase_length (getFullYear a) (getMonth a)
  have hsw := swOf_le (getFullYear a) (getMonth a)
  have hdim := dimOf_bounds (getFullYear a) (getMonth a)
  have hgrid : buildMonthGrid a = monthBase (getFullYear a) (getMonth a) ++ t := by
    rw [buildMonthGrid_eq]
    unfold fillGrid
    exact ht
  have hlen : (buildMonthGrid a).length = 42 := by
    rw [buildMonthGrid_eq]
    unfold fillGrid
    exact fillGridAux_length 42 _ (monthBase_ne_nil _ _) (by omega) (by omega)
  have hcons : Consec (buildMonthGrid a) := by
    rw [buildMonthGrid_eq]
    unfold fillGrid
    exact fillGridAux_consec 42 _ (monthBase_consec _ _)
  obtain ⟨c0', hc0', hdate0, _⟩ :=
    monthBase_date (getFullYear a) (getMonth a) 0 (by omega)
  have hc0grid : (buildMonthGrid a)[0]? = some c0' := by
    rw [hgrid, List.getElem?_append_left (by omega)]
    exact hc0'
  have hswI : ((swOf (getFullYear a) (getMonth a) : Nat) : Int) =
      getDay (mkDate (getFullYear a) (getMonth a) 1) := by
    have := getDay_bounds (mkDate (getFullYear a) (getMonth a) 1)
    unfold swOf
    omega
  have hdate0' : c0'.date = mkDate (getFullYear a) (getMonth a) 1 -
      (swOf (getFullYear a) (getMonth a) : Int) := by
    rw [hdate0]
    push_cast
    ring
  refine ⟨hlen, ?_, ?_, ?_⟩
  · intro i hi c1 c2 h1 h2
    exact hcons i (by omega) c1 c2 h1 h2
  · intro c0 h0
    rw [hc0grid] at h0
    rw [← Option.some.inj h0]
    have hgb := getDay_bounds (mkDate (getFullYear a) (getMonth a) 1)
    rw [hdate0']
    unfold getDay at *
    refine ⟨by omega, by omega, by omega⟩
  · intro i hi cell hcell
    have hdatei := consec_date_from_head (buildMonthGrid a) hcons i (by omega) c0' cell
      hc0grid hcell
    have hgb := getDay_bounds (mkDate (getFullYear a) (getMonth a) 1)
    rw [hdatei, hdate0']
    unfold getDay at *
    omega

theorem C10_grid_consecutive_days_witness :
    (buildMonthGrid (mkDate 2025 7 13)).length = 42 ∧
    (∀ c0 : Cell, (buildMonthGrid (mkDate 2025 7 13))[0]? = some c0 →
      getDay c0.date = 0 ∧
      c0.date ≤ mkDate (getFullYear (mkDate 2025 7 13)) (getMonth (mkDate 2025 7 13)) 1 ∧
      mkDate (getFullYear (mkDate 2025 7 13)) (getMonth (mkDate 2025 7 13)) 1 < c0.date + 7) :=
  ⟨(C10_grid_consecutive_days (mkDate 2025 7 13)).1,
    (C10_grid_consecutive_days (mkDate 2025 7 13)).2.2.1⟩

/-! ## Claim theorems: addMonths (C9) -/

theorem mkDate_normalize (y m d : Int) :
    mkDate y m d = mkDate (y + m / 12) ((m % 12).toNat : Int) d := by
  unfold mkDate
  have h1 : ((((m % 12).toNat : Int)) / 12) = 0 := by omega
  have h2 : ((((m % 12).toNat : Int)) % 12).toNat = (m % 12).toNat := by omega
  rw [h1, h2, add_zero]

/-- C9: `addMonths` advances the month field by `n` — the resulting civil
fields are the normalized `(year, month + n)` with the day-of-month
preserved — whenever the target month has that day; when the target month is
shorter, the day rolls over into the following month (e.g. 2026-01-31 plus
one month is 2026-03-03, in March), rather than clamping. -/
theorem C9_addMonths_spec :
    (∀ z n : Int,
      getDate z ≤ (monthLen (isLeapYear (getFullYear z + (getMonth z + n) / 12))
        (((getMonth z + n) % 12).toNat) : Int) →
      toCivil (addMonths z n) =
        (getFullYear z + (getMonth z + n) / 12, ((getMonth z + n) % 12).toNat,
         (getDate z).toNat)) ∧
    (addMonths (mkDate 2026 0 31) 1 = mkDate 2026 2 3 ∧
     getMonth (addMonths (mkDate 2026 0 31) 1) = 2 ∧
     getDate (addMonths (mkDate 2026 0 31) 1) = 3) := by
  constructor
  · intro z n hfit
    have hdb := getDate_bounds z
    unfold addMonths
    rw [mkDate_normalize]
    have hm12 : ((getMonth z + n) % 12).toNat < 12 := by omega
    have hdz : ((getDate z).toNat : Int) = getDate z := by omega
    rw [← hdz]
    exact toCivil_mkDate (getFullYear z + (getMonth z + n) / 12)
      ((getMonth z + n) % 12).toNat (getDate z).toNat hm12 (by omega) (by omega)
  · exact ⟨by decide, by decide, by decide⟩

theorem C9_addMonths_spec_witness :
    getDate (mkDate 2025 7 13) ≤
      (monthLen (isLeapYear (getFullYear (mkDate 2025 7 13) +
          (getMonth (mkDate 2025 7 13) + 1) / 12))
        (((getMonth (mkDate 2025 7 13) + 1) % 12).toNat) : Int) ∧
    toCivil (addMonths (mkDate 2025 7 13) 1) =
      (getFullYear (mkDate 2025 7 13) + (getMonth (mkDate 2025 7 13) + 1) / 12,
       ((getMonth (mkDate 2025 7 13) + 1) % 12).toNat,
       (getDate (mkDate 2025 7 13)).toNat) :=
  ⟨by decide, C9_addMonths_spec.1 (mkDate 2025 7 13) 1 (by decide)⟩
